import Mathlib

/-!
# Verification of the GeneSequencing alignment engine

Shallow embedding of `src/GeneSequencing.py` (class `GeneSequencing`): the
unrestricted and banded Needleman-Wunsch cost-matrix builders, the two
traceback reconstructors, and the `align` facade, together with theorems
checking the natural-language specification against this code.

Modelling conventions:
* Python integers are `Int`; `math.inf` values are `⊤` in `WithTop Int`
  (Python's `min` and `+` on `math.inf` agree with the `WithTop` operations).
* Python sequences are `List Char`; `seq[i]` with its negative-index
  wrap-around and `IndexError` is `pyNth` (an `IndexError` is `none`).
* The cost matrix `E` and back-pointer matrix `P` are built by loops in the
  source, each cell written exactly once at iteration `(i, j)` from already
  written cells; we define the cell value as a function of `(i, j)` by the
  same recurrence (structural recursion on a fuel argument so that the
  kernel can evaluate it) and the matrices as tables of those values.
* The traceback `while` loops are modelled with an ample fuel argument:
  every iteration either moves an index past a bound that makes the next
  list access raise (`none`), or decreases a bounded quantity, so the fuel
  chosen in `alignedUnrestricted` / `alignedBanded` can never be exhausted
  before the loop exits or raises; `none` means the Python code raises.
-/

/-! ## Constants of the source (lines 17-22) -/

def MAXINDELS : Nat := 3

def MATCH : Int := -3

def INDEL : Int := 5

def SUB : Int := 1

/-- `diff` (lines 138-142): `MATCH` if the characters are equal, else `SUB`. -/
def diff (i j : Char) : Int := if i = j then MATCH else SUB

/-! ## Python list indexing -/

/-- `l[k]` for a Python list: non-negative indices are direct (out of range
raises, i.e. `none`), negative indices wrap once from the end. -/
def pyNth {α : Type} (l : List α) (k : Int) : Option α :=
  if 0 ≤ k then l[k.toNat]?
  else if (l.length : Int) + k < 0 then none
  else l[((l.length : Int) + k).toNat]?

/-- Character of `s` at the (in-range) index `k`; the builders only read
in-range indices at the cells whose value matters (see the lemmas below). -/
def chAt (s : List Char) (k : Nat) : Char := s.getD k 'A'

/-- Total version of Python character indexing used inside the banded
builder, where the index `i + j - MAXINDELS - 1` is `-1` exactly at cells
whose real column is 0: there Python wraps to the last character of the
(truncated) sequence, and the resulting `diff` is added to an infinite
neighbour, so the value never matters.  The default is only returned where
the Python code would raise on an empty sequence. -/
def pyChD (s : List Char) (k : Int) : Char :=
  if 0 ≤ k then s.getD k.toNat 'A'
  else s.getD ((s.length : Int) + k).toNat 'A'

/-! ## Unrestricted cost matrix (getEditDistanceUnrestricted, lines 113-134)

`E[0][j] = 5*j`, `E[i][0] = 5*i` (lines 118-122), and for `i, j ≥ 1`
`E[i][j] = min(diff(seq1[i-1], seq2[j-1]) + E[i-1][j-1], INDEL + E[i][j-1],
INDEL + E[i-1][j])` (line 126).  `EcellF` is that recurrence with a fuel
argument; `2*i + j` strictly decreases on every recursive call, so any fuel
above `2*i + j` computes the cell (lemma `EcellF_congr`). -/

def EcellF (s1 s2 : List Char) : Nat → Nat → Nat → Int
  | 0, _, _ => 0
  | _ + 1, 0, j => 5 * j
  | _ + 1, i + 1, 0 => 5 * (i + 1)
  | f + 1, i + 1, j + 1 =>
    min (diff (chAt s1 i) (chAt s2 j) + EcellF s1 s2 f i j)
      (min (INDEL + EcellF s1 s2 f (i + 1) j) (INDEL + EcellF s1 s2 f i (j + 1)))

/-- `E[i][j]` of the unrestricted builder. -/
def Ecell (s1 s2 : List Char) (i j : Nat) : Int := EcellF s1 s2 (2 * i + j + 1) i j

/-- `P[i][j]` of the unrestricted builder: `P[i][0] = 0` for every `i`
(line 120), `P[0][j] = 1` for `j ≥ 1` (line 123), and for `i, j ≥ 1` the
tag chain of lines 128-133. -/
def Pcell (s1 s2 : List Char) : Nat → Nat → Int
  | _, 0 => 0
  | 0, _ + 1 => 1
  | i + 1, j + 1 =>
    if Ecell s1 s2 (i + 1) (j + 1) = INDEL + Ecell s1 s2 (i + 1) j then 1
    else if Ecell s1 s2 (i + 1) (j + 1) = INDEL + Ecell s1 s2 i (j + 1) then 2
    else 0

/-- The built matrix `E`: `len1 = min(len(seq1), align_length) + 1` rows
(line 114), each of `len2 = min(len(seq2), align_length) + 1` entries. -/
def EtabU (L : Nat) (s1 s2 : List Char) : List (List Int) :=
  (List.range (min s1.length L + 1)).map fun i =>
    (List.range (min s2.length L + 1)).map fun j => Ecell s1 s2 i j

/-- The built matrix `P` of the unrestricted builder. -/
def PtabU (L : Nat) (s1 s2 : List Char) : List (List Int) :=
  (List.range (min s1.length L + 1)).map fun i =>
    (List.range (min s2.length L + 1)).map fun j => Pcell s1 s2 i j

/-- `getEditDistanceUnrestricted` returns `(E[len1-1][len2-1], P)`
(line 134). -/
def getEditDistanceUnrestricted (L : Nat) (s1 s2 : List Char) :
    Int × List (List Int) :=
  (((EtabU L s1 s2).getD (min s1.length L) []).getD (min s2.length L) 0,
    PtabU L s1 s2)

/-! ## Unrestricted traceback (alignedUnrestricted, lines 185-206) -/

/-- The `while i > 0 or j > 0` loop of lines 191-204, building the two
aligned strings by prepending; `a1`, `a2` are the strings built so far.
Returns the two outputs truncated to 100 characters (line 206); `none`
models an `IndexError`.  The fuel passed by `alignedUnrestricted` cannot
run out: every iteration decreases `i + j` by at least 1, and the loop
exits or raises once `i < -len(P)` or `j < -len(P[0])`. -/
def tbU (s1 s2 : List Char) (P : List (List Int)) :
    Nat → Int → Int → List Char → List Char → Option (List Char × List Char)
  | 0, _, _, _, _ => none
  | fuel + 1, i, j, a1, a2 =>
    if 0 < i ∨ 0 < j then
      match pyNth P i with
      | none => none
      | some row =>
        match pyNth row j with
        | none => none
        | some t =>
          if t = 2 then
            match pyNth s1 (i - 1) with
            | none => none
            | some c1 => tbU s1 s2 P fuel (i - 1) j (c1 :: a1) ('-' :: a2)
          else if t = 0 then
            match pyNth s1 (i - 1), pyNth s2 (j - 1) with
            | some c1, some c2 => tbU s1 s2 P fuel (i - 1) (j - 1) (c1 :: a1) (c2 :: a2)
            | _, _ => none
          else
            match pyNth s2 (j - 1) with
            | none => none
            | some c2 => tbU s1 s2 P fuel i (j - 1) ('-' :: a1) (c2 :: a2)
    else some (a1.take 100, a2.take 100)

/-- `alignedUnrestricted`: starts at `i = len(P) - 1`, `j = len(P[i]) - 1`
(lines 186-187) and runs the loop. -/
def alignedUnrestricted (s1 s2 : List Char) (P : List (List Int)) :
    Option (List Char × List Char) :=
  match P.getLast? with
  | none => none
  | some lastRow =>
    tbU s1 s2 P (2 * (P.length + lastRow.length) + 8)
      ((P.length : Int) - 1) ((lastRow.length : Int) - 1) [] []

/-- The literal returned for an infeasible banded alignment (line 148). -/
def NAP : List Char := "No Alignment Possible".data

/-- `align` with `banded = False`: builder, then `aligned` (which checks
`if not P`, vacuous here since `P` always has a row), then the result
record (lines 34-41, 146-152). -/
def alignUnrestricted (L : Nat) (s1 s2 : List Char) :
    Option (WithTop Int × List Char × List Char) :=
  let sp := getEditDistanceUnrestricted L s1 s2
  if sp.2 = [] then some ((sp.1 : WithTop Int), NAP, NAP)
  else (alignedUnrestricted s1 s2 sp.2).map fun a => ((sp.1 : WithTop Int), a.1, a.2)

/-! ## Banded cost matrix (getEditDistanceBanded, lines 56-106)

Both sequences are first truncated to `L` characters (lines 57-58).  A band
cell `(i, j)` with `0 ≤ j ≤ 2*MAXINDELS` corresponds to real column
`i + j - MAXINDELS`; it is populated only when
`len(seq2) ≥ i + j - MAXINDELS ≥ 0` (line 70), otherwise both matrices hold
`math.inf` (lines 99-100). -/

/-- The band-cell population test of line 70 (in `Nat` form:
`i + j - 3` as an integer is `≥ 0` iff `3 ≤ i + j` and `≤ m` iff
`i + j ≤ m + 3`). -/
def validB (m i j : Nat) : Prop := 3 ≤ i + j ∧ i + j ≤ m + 3

instance (m i j : Nat) : Decidable (validB m i j) := by unfold validB; infer_instance

/-- Banded `E[i][j]` with fuel: row 0 holds `5 * (j - MAXINDELS)` (line 72);
for `i ≥ 1` the three-way minimum of lines 76-97, with the band's last
column (`j = 2*MAXINDELS`) lacking the "up" neighbour and its first column
(`j = 0`) lacking the "left" neighbour.  `8*i + j` strictly decreases on
every recursive call, so any fuel above it computes the cell
(lemma `EbF_congr`).  `t1`, `t2` are the already-truncated sequences. -/
def EbF (t1 t2 : List Char) : Nat → Nat → Nat → WithTop Int
  | 0, _, _ => 0
  | f + 1, i, j =>
    if validB t2.length i j then
      if i = 0 then ((5 * ((j : Int) - 3) : Int) : WithTop Int)
      else
        if j = 6 then
          min (((diff (chAt t1 (i - 1)) (pyChD t2 ((i : Int) + j - 4)) : Int) : WithTop Int) +
              EbF t1 t2 f (i - 1) j)
            (((INDEL : Int) : WithTop Int) + EbF t1 t2 f i (j - 1))
        else if j = 0 then
          min (((diff (chAt t1 (i - 1)) (pyChD t2 ((i : Int) + j - 4)) : Int) : WithTop Int) +
              EbF t1 t2 f (i - 1) j)
            (((INDEL : Int) : WithTop Int) + EbF t1 t2 f (i - 1) (j + 1))
        else
          min (((diff (chAt t1 (i - 1)) (pyChD t2 ((i : Int) + j - 4)) : Int) : WithTop Int) +
              EbF t1 t2 f (i - 1) j)
            (min (((INDEL : Int) : WithTop Int) + EbF t1 t2 f i (j - 1))
              (((INDEL : Int) : WithTop Int) + EbF t1 t2 f (i - 1) (j + 1)))
    else ⊤

/-- Banded `E[i][j]`. -/
def Eb (t1 t2 : List Char) (i j : Nat) : WithTop Int := EbF t1 t2 (8 * i + j + 1) i j

/-- Banded `P[i][j]`: `math.inf` at unpopulated cells (line 100), tag 1 on
row 0 (line 73), and otherwise the tag chains of lines 75-96, each
comparing the cell value `e` with the candidate moves in the order the
source checks them. -/
def Pb (t1 t2 : List Char) (i j : Nat) : WithTop Int :=
  if validB t2.length i j then
    if i = 0 then (1 : Int)
    else
      if j = 6 then
        if Eb t1 t2 i j = ((INDEL : Int) : WithTop Int) + Eb t1 t2 i (j - 1) then (1 : Int)
        else (0 : Int)
      else if j = 0 then
        if Eb t1 t2 i j = ((INDEL : Int) : WithTop Int) + Eb t1 t2 (i - 1) (j + 1) then (2 : Int)
        else (0 : Int)
      else
        if Eb t1 t2 i j = ((INDEL : Int) : WithTop Int) + Eb t1 t2 i (j - 1) then (1 : Int)
        else if Eb t1 t2 i j = ((INDEL : Int) : WithTop Int) + Eb t1 t2 (i - 1) (j + 1) then (2 : Int)
        else (0 : Int)
  else ⊤

/-- The built banded `E`: `len(seq1) + 1` rows of `2*MAXINDELS + 1` entries
(lines 59-60, 66-69). -/
def EtabB (t1 t2 : List Char) : List (List (WithTop Int)) :=
  (List.range (t1.length + 1)).map fun i => (List.range 7).map fun j => Eb t1 t2 i j

/-- The built banded `P`. -/
def PtabB (t1 t2 : List Char) : List (List (WithTop Int)) :=
  (List.range (t1.length + 1)).map fun i => (List.range 7).map fun j => Pb t1 t2 i j

/-- The `while ret == math.inf: ret_j -= 1` scan (lines 101-105 and
157-161): starting at index `j`, walk left until a non-infinite entry is
found, returning its index and value; `none` models the `IndexError` the
scan raises after wrapping past the start of an all-infinite row.  The
fuel 16 is ample: the scan starts at index 6 and raises at index -8. -/
def scanInf (row : List (WithTop Int)) : Nat → Int → Option (Int × WithTop Int)
  | 0, _ => none
  | fuel + 1, j =>
    match pyNth row j with
    | none => none
    | some v => if v = ⊤ then scanInf row fuel (j - 1) else some (j, v)

/-- `getEditDistanceBanded` (lines 56-106): truncate, fail fast with
`(math.inf, [])` when the truncated lengths differ by more than
`MAXINDELS` (lines 61-62), else build the matrices and return the value of
the last row's rightmost non-infinite column together with `P`. -/
def getEditDistanceBanded (L : Nat) (s1 s2 : List Char) :
    Option (WithTop Int × List (List (WithTop Int))) :=
  let t1 := s1.take L
  let t2 := s2.take L
  if 3 < ((t1.length : Int) - (t2.length : Int)).natAbs then some (⊤, [])
  else
    match scanInf ((EtabB t1 t2).getD t1.length []) 16 6 with
    | none => none
    | some jv => some (jv.2, PtabB t1 t2)

/-! ## Banded traceback (alignedBanded, lines 157-180) -/

/-- The `while not (i == 0 and j == MAXINDELS)` loop of lines 165-178:
tag 2 moves to `(i-1, j+1)`, tag 0 to `(i-1, j)`, anything else (the
`else` catches tag 1) to `(i, j-1)`; characters of sequence 2 are read at
real column `i + j - MAXINDELS - 1`.  `none` models an `IndexError`; the
fuel passed by `alignedBanded` cannot run out (each iteration decreases
`i` or `j`, `j` grows only while `i` decreases, and every index is
confined to `[-len-1, len]` on pain of raising). -/
def tbB (s1 s2 : List Char) (P : List (List (WithTop Int))) :
    Nat → Int → Int → List Char → List Char → Option (List Char × List Char)
  | 0, _, _, _, _ => none
  | fuel + 1, i, j, a1, a2 =>
    if i = 0 ∧ j = 3 then some (a1.take 100, a2.take 100)
    else
      match pyNth P i with
      | none => none
      | some row =>
        match pyNth row j with
        | none => none
        | some t =>
          if t = ((2 : Int) : WithTop Int) then
            match pyNth s1 (i - 1) with
            | none => none
            | some c1 => tbB s1 s2 P fuel (i - 1) (j + 1) (c1 :: a1) ('-' :: a2)
          else if t = ((0 : Int) : WithTop Int) then
            match pyNth s1 (i - 1), pyNth s2 (i + j - 4) with
            | some c1, some c2 => tbB s1 s2 P fuel (i - 1) j (c1 :: a1) (c2 :: a2)
            | _, _ => none
          else
            match pyNth s2 (i + j - 4) with
            | none => none
            | some c2 => tbB s1 s2 P fuel i (j - 1) ('-' :: a1) (c2 :: a2)

/-- `alignedBanded`: starting at the last row, skip left over trailing
infinite entries (lines 158-161), then run the traceback loop.  Note the
untruncated sequences are passed in (line 150 calls it with the original
arguments of `align`). -/
def alignedBanded (s1 s2 : List Char) (P : List (List (WithTop Int))) :
    Option (List Char × List Char) :=
  match P.getLast? with
  | none => none
  | some lastRow =>
    match scanInf lastRow 16 ((lastRow.length : Int) - 1) with
    | none => none
    | some jv =>
      tbB s1 s2 P (8 * (P.length + 8)) ((P.length : Int) - 1) jv.1 [] []

/-- `align` with `banded = True`: builder, then `aligned`, which returns
the `"No Alignment Possible"` pair when the builder produced no
back-pointer structure (lines 146-150). -/
def alignBanded (L : Nat) (s1 s2 : List Char) :
    Option (WithTop Int × List Char × List Char) :=
  match getEditDistanceBanded L s1 s2 with
  | none => none
  | some sp =>
    if sp.2 = [] then some (sp.1, NAP, NAP)
    else (alignedBanded s1 s2 sp.2).map fun a => (sp.1, a.1, a.2)

/-- The public `align` entry point (lines 34-49): dispatches on the
`banded` flag with align-length `L`. -/
def align (banded : Bool) (L : Nat) (s1 s2 : List Char) :
    Option (WithTop Int × List Char × List Char) :=
  if banded then alignBanded L s1 s2 else alignUnrestricted L s1 s2

/-! ## Specification-side definitions

These follow the wording of the specification, to be compared with the
definitions above that were translated from the source. -/

/-- From the spec: `diff` returns −3 when the two characters are equal and
+1 otherwise. -/
def specDiff (a b : Char) : Int := if a = b then -3 else 1

/-- From the spec: the dynamic program `E[0][j] = 5*j`, `E[i][0] = 5*i`,
`E[i][j] = min(diff(seq1[i-1], seq2[j-1]) + E[i-1][j-1], 5 + E[i][j-1],
5 + E[i-1][j])` (fuelled exactly like `EcellF`). -/
def specEF (s1 s2 : List Char) : Nat → Nat → Nat → Int
  | 0, _, _ => 0
  | _ + 1, 0, j => 5 * j
  | _ + 1, i + 1, 0 => 5 * (i + 1)
  | f + 1, i + 1, j + 1 =>
    min (specDiff (chAt s1 i) (chAt s2 j) + specEF s1 s2 f i j)
      (min (5 + specEF s1 s2 f (i + 1) j) (5 + specEF s1 s2 f i (j + 1)))

/-- The spec's `E[i][j]`. -/
def specE (s1 s2 : List Char) (i j : Nat) : Int := specEF s1 s2 (2 * i + j + 1) i j

/-- An alignment of two sequences and its total cost, built column by
column from the right: a column either consumes one character of each
sequence (cost `diff`), or one character of the first sequence against a
gap, or one character of the second sequence against a gap (cost 5 each).
`AlignCost xs ys c` holds iff some alignment of `xs` and `ys` costs `c`. -/
inductive AlignCost : List Char → List Char → Int → Prop
  | nil : AlignCost [] [] 0
  | both {xs ys c} (x y : Char) :
      AlignCost xs ys c → AlignCost (xs ++ [x]) (ys ++ [y]) (c + specDiff x y)
  | del {xs ys c} (x : Char) : AlignCost xs ys c → AlignCost (xs ++ [x]) ys (c + 5)
  | ins {xs ys c} (y : Char) : AlignCost xs ys c → AlignCost xs (ys ++ [y]) (c + 5)

/-- From the spec's tie-break rule: the tag of the first candidate in
`cands` (listed in priority order, each a tag paired with its move's
value) whose value equals the achieved minimum `target`; 99 if none
matches (the theorems below show this fallback is never taken). -/
def firstMatchTag {α : Type} [DecidableEq α] (target : α) (cands : List (Int × α)) : Int :=
  match cands.find? (fun c => decide (target = c.2)) with
  | some c => c.1
  | none => 99

/-- From the spec (§4.2): the candidate moves of a banded cell in priority
order — the band's last column has no "up" neighbour, its first column has
no "left" neighbour. -/
def bandCands (t1 t2 : List Char) (i j : Nat) : List (Int × WithTop Int) :=
  if j = 6 then
    [(1, ((INDEL : Int) : WithTop Int) + Eb t1 t2 i (j - 1)),
      (0, ((diff (chAt t1 (i - 1)) (pyChD t2 ((i : Int) + j - 4)) : Int) : WithTop Int) +
        Eb t1 t2 (i - 1) j)]
  else if j = 0 then
    [(2, ((INDEL : Int) : WithTop Int) + Eb t1 t2 (i - 1) (j + 1)),
      (0, ((diff (chAt t1 (i - 1)) (pyChD t2 ((i : Int) + j - 4)) : Int) : WithTop Int) +
        Eb t1 t2 (i - 1) j)]
  else
    [(1, ((INDEL : Int) : WithTop Int) + Eb t1 t2 i (j - 1)),
      (2, ((INDEL : Int) : WithTop Int) + Eb t1 t2 (i - 1) (j + 1)),
      (0, ((diff (chAt t1 (i - 1)) (pyChD t2 ((i : Int) + j - 4)) : Int) : WithTop Int) +
        Eb t1 t2 (i - 1) j)]

/-- Gap markers removed from an aligned string. -/
def stripGaps (s : List Char) : List Char := s.filter (fun c => decide (c ≠ '-'))

/-! ## Fuel irrelevance and cell equations -/

theorem EcellF_congr (s1 s2 : List Char) :
    ∀ f g i j, 2 * i + j < f → 2 * i + j < g →
      EcellF s1 s2 f i j = EcellF s1 s2 g i j := by
  intro f
  induction f with
  | zero => intro g i j hf _; omega
  | succ f ih =>
    intro g i j hf hg
    cases g with
    | zero => omega
    | succ g =>
      cases i with
      | zero => rfl
      | succ i =>
        cases j with
        | zero => rfl
        | succ j =>
          show min _ (min _ _) = min _ (min _ _)
          rw [ih g i j (by omega) (by omega), ih g (i + 1) j (by omega) (by omega),
            ih g i (j + 1) (by omega) (by omega)]

theorem Ecell_zero_row (s1 s2 : List Char) (j : Nat) : Ecell s1 s2 0 j = 5 * j := rfl

theorem Ecell_zero_col (s1 s2 : List Char) (i : Nat) :
    Ecell s1 s2 (i + 1) 0 = 5 * (i + 1) := rfl

theorem Ecell_succ (s1 s2 : List Char) (i j : Nat) :
    Ecell s1 s2 (i + 1) (j + 1) =
      min (diff (chAt s1 i) (chAt s2 j) + Ecell s1 s2 i j)
        (min (INDEL + Ecell s1 s2 (i + 1) j) (INDEL + Ecell s1 s2 i (j + 1))) := by
  show min _ (min _ _) = _
  rw [EcellF_congr s1 s2 (2 * (i + 1) + (j + 1)) (2 * i + j + 1) i j (by omega) (by omega),
    EcellF_congr s1 s2 (2 * (i + 1) + (j + 1)) (2 * (i + 1) + j + 1) (i + 1) j (by omega)
      (by omega),
    EcellF_congr s1 s2 (2 * (i + 1) + (j + 1)) (2 * i + (j + 1) + 1) i (j + 1) (by omega)
      (by omega)]
  rfl

theorem specEF_congr (s1 s2 : List Char) :
    ∀ f g i j, 2 * i + j < f → 2 * i + j < g →
      specEF s1 s2 f i j = specEF s1 s2 g i j := by
  intro f
  induction f with
  | zero => intro g i j hf _; omega
  | succ f ih =>
    intro g i j hf hg
    cases g with
    | zero => omega
    | succ g =>
      cases i with
      | zero => rfl
      | succ i =>
        cases j with
        | zero => rfl
        | succ j =>
          show min _ (min _ _) = min _ (min _ _)
          rw [ih g i j (by omega) (by omega), ih g (i + 1) j (by omega) (by omega),
            ih g i (j + 1) (by omega) (by omega)]

theorem specE_succ (s1 s2 : List Char) (i j : Nat) :
    specE s1 s2 (i + 1) (j + 1) =
      min (specDiff (chAt s1 i) (chAt s2 j) + specE s1 s2 i j)
        (min (5 + specE s1 s2 (i + 1) j) (5 + specE s1 s2 i (j + 1))) := by
  show min _ (min _ _) = _
  rw [specEF_congr s1 s2 (2 * (i + 1) + (j + 1)) (2 * i + j + 1) i j (by omega) (by omega),
    specEF_congr s1 s2 (2 * (i + 1) + (j + 1)) (2 * (i + 1) + j + 1) (i + 1) j (by omega)
      (by omega),
    specEF_congr s1 s2 (2 * (i + 1) + (j + 1)) (2 * i + (j + 1) + 1) i (j + 1) (by omega)
      (by omega)]
  rfl

/-- The code's recurrence is the spec's recurrence. -/
theorem Ecell_eq_specE (s1 s2 : List Char) (i j : Nat) :
    Ecell s1 s2 i j = specE s1 s2 i j := by
  have key : ∀ n i j, i + j ≤ n → Ecell s1 s2 i j = specE s1 s2 i j := by
    intro n
    induction n with
    | zero =>
      intro i j h
      obtain ⟨rfl, rfl⟩ : i = 0 ∧ j = 0 := by omega
      rfl
    | succ n ih =>
      intro i j h
      cases i with
      | zero => rfl
      | succ i =>
        cases j with
        | zero => rfl
        | succ j =>
          rw [Ecell_succ, specE_succ, ih i j (by omega), ih (i + 1) j (by omega),
            ih i (j + 1) (by omega)]
          have : diff (chAt s1 i) (chAt s2 j) = specDiff (chAt s1 i) (chAt s2 j) := rfl
          rw [this]
          rfl
  exact key (i + j) i j le_rfl

theorem EbF_congr (t1 t2 : List Char) :
    ∀ f g i j, 8 * i + j < f → 8 * i + j < g →
      EbF t1 t2 f i j = EbF t1 t2 g i j := by
  intro f
  induction f with
  | zero => intro g i j hf _; omega
  | succ f ih =>
    intro g i j hf hg
    cases g with
    | zero => omega
    | succ g =>
      simp only [EbF]
      by_cases hv : validB t2.length i j
      · simp only [hv, if_true]
        by_cases hi : i = 0
        · simp [hi]
        · simp only [hi, if_false]
          by_cases h6 : j = 6
          · simp only [h6, if_true]
            rw [ih g (i - 1) 6 (by omega) (by omega), ih g i 5 (by omega) (by omega)]
          · simp only [h6, if_false]
            by_cases h0 : j = 0
            · simp only [h0, if_true]
              rw [ih g (i - 1) 0 (by omega) (by omega), ih g (i - 1) 1 (by omega) (by omega)]
            · simp only [h0, if_false]
              rw [ih g (i - 1) j (by omega) (by omega), ih g i (j - 1) (by omega) (by omega),
                ih g (i - 1) (j + 1) (by omega) (by omega)]
      · simp [hv]

/-- Unpopulated cells hold `math.inf`. -/
theorem Eb_invalid (t1 t2 : List Char) (i j : Nat) (hv : ¬ validB t2.length i j) :
    Eb t1 t2 i j = ⊤ := by
  unfold Eb
  simp only [EbF, hv, if_false]

/-- Row 0 of the band holds the pure-insertion costs. -/
theorem Eb_row0 (t1 t2 : List Char) (j : Nat) (hv : validB t2.length 0 j) :
    Eb t1 t2 0 j = ((5 * ((j : Int) - 3) : Int) : WithTop Int) := by
  unfold Eb
  simp only [EbF, hv, if_true]

/-- One-step unfolding of a populated non-row-0 banded cell in terms of
the cell function itself. -/
theorem Eb_succ (t1 t2 : List Char) (i j : Nat) (hv : validB t2.length i j) (hi : i ≠ 0) :
    Eb t1 t2 i j =
      if j = 6 then
        min (((diff (chAt t1 (i - 1)) (pyChD t2 ((i : Int) + j - 4)) : Int) : WithTop Int) +
            Eb t1 t2 (i - 1) j)
          (((INDEL : Int) : WithTop Int) + Eb t1 t2 i (j - 1))
      else if j = 0 then
        min (((diff (chAt t1 (i - 1)) (pyChD t2 ((i : Int) + j - 4)) : Int) : WithTop Int) +
            Eb t1 t2 (i - 1) j)
          (((INDEL : Int) : WithTop Int) + Eb t1 t2 (i - 1) (j + 1))
      else
        min (((diff (chAt t1 (i - 1)) (pyChD t2 ((i : Int) + j - 4)) : Int) : WithTop Int) +
            Eb t1 t2 (i - 1) j)
          (min (((INDEL : Int) : WithTop Int) + Eb t1 t2 i (j - 1))
            (((INDEL : Int) : WithTop Int) + Eb t1 t2 (i - 1) (j + 1))) := by
  conv_lhs => unfold Eb
  simp only [EbF, hv, if_true, hi, if_false]
  by_cases h6 : j = 6
  · simp only [h6, if_true]
    rw [show EbF t1 t2 (8 * i + 6) (i - 1) 6 = Eb t1 t2 (i - 1) 6 from
        EbF_congr t1 t2 _ _ _ _ (by omega) (by omega),
      show EbF t1 t2 (8 * i + 6) i 5 = Eb t1 t2 i 5 from
        EbF_congr t1 t2 _ _ _ _ (by omega) (by omega)]
  · simp only [h6, if_false]
    by_cases h0 : j = 0
    · simp only [h0, if_true]
      rw [show EbF t1 t2 (8 * i + 0) (i - 1) 0 = Eb t1 t2 (i - 1) 0 from
          EbF_congr t1 t2 _ _ _ _ (by omega) (by omega),
        show EbF t1 t2 (8 * i + 0) (i - 1) (0 + 1) = Eb t1 t2 (i - 1) (0 + 1) from
          EbF_congr t1 t2 _ _ _ _ (by omega) (by omega)]
    · simp only [h0, if_false]
      rw [show EbF t1 t2 (8 * i + j) (i - 1) j = Eb t1 t2 (i - 1) j from
          EbF_congr t1 t2 _ _ _ _ (by omega) (by omega),
        show EbF t1 t2 (8 * i + j) i (j - 1) = Eb t1 t2 i (j - 1) from
          EbF_congr t1 t2 _ _ _ _ (by omega) (by omega),
        show EbF t1 t2 (8 * i + j) (i - 1) (j + 1) = Eb t1 t2 (i - 1) (j + 1) from
          EbF_congr t1 t2 _ _ _ _ (by omega) (by omega)]

/-! ## Generic helper lemmas -/

theorem min3_resolve {α : Type} [LinearOrder α] {a b c e : α}
    (h : e = min a (min b c)) (hb : e ≠ b) (hc : e ≠ c) : e = a := by
  rcases min_choice a (min b c) with h1 | h1 <;> rw [h1] at h
  · exact h
  · rcases min_choice b c with h2 | h2 <;> rw [h2] at h
    · exact absurd h hb
    · exact absurd h hc

theorem min2_resolve {α : Type} [LinearOrder α] {a b e : α}
    (h : e = min a b) (hb : e ≠ b) : e = a := by
  rcases min_choice a b with h1 | h1 <;> rw [h1] at h
  · exact h
  · exact absurd h hb

theorem pyNth_coe {α : Type} (l : List α) (k : Nat) : pyNth l (k : Int) = l[k]? := by
  simp [pyNth]

theorem pyNth_coe_lt {α : Type} (l : List α) (k : Nat) (h : k < l.length) :
    pyNth l (k : Int) = some l[k] := by
  rw [pyNth_coe]
  exact List.getElem?_eq_getElem h

theorem map_range_getD {α : Type} (f : Nat → α) (n i : Nat) (d : α) (h : i < n) :
    ((List.range n).map f).getD i d = f i := by
  rw [List.getD_eq_getElem?_getD, List.getElem?_map, List.getElem?_range h]
  rfl

/-- Entry `(i, j)` of the built unrestricted `E`. -/
theorem EtabU_getD (L : Nat) (s1 s2 : List Char) (i j : Nat)
    (hi : i ≤ min s1.length L) (hj : j ≤ min s2.length L) :
    ((EtabU L s1 s2).getD i []).getD j 0 = Ecell s1 s2 i j := by
  unfold EtabU
  rw [map_range_getD _ _ _ _ (by omega), map_range_getD _ _ _ _ (by omega)]

/-- Entry `(i, j)` of the built unrestricted `P`. -/
theorem PtabU_getD (L : Nat) (s1 s2 : List Char) (i j : Nat) (d : Int)
    (hi : i ≤ min s1.length L) (hj : j ≤ min s2.length L) :
    ((PtabU L s1 s2).getD i []).getD j d = Pcell s1 s2 i j := by
  unfold PtabU
  rw [map_range_getD _ _ _ _ (by omega), map_range_getD _ _ _ _ (by omega)]

/-- Entry `(i, j)` of the built banded `E`. -/
theorem EtabB_getD (t1 t2 : List Char) (i j : Nat)
    (hi : i ≤ t1.length) (hj : j ≤ 6) :
    ((EtabB t1 t2).getD i []).getD j 0 = Eb t1 t2 i j := by
  unfold EtabB
  rw [map_range_getD _ _ _ _ (by omega), map_range_getD _ _ _ _ (by omega)]

/-- Entry `(i, j)` of the built banded `P`. -/
theorem PtabB_getD (t1 t2 : List Char) (i j : Nat) (d : WithTop Int)
    (hi : i ≤ t1.length) (hj : j ≤ 6) :
    ((PtabB t1 t2).getD i []).getD j d = Pb t1 t2 i j := by
  unfold PtabB
  rw [map_range_getD _ _ _ _ (by omega), map_range_getD _ _ _ _ (by omega)]

/-! ## Tie-breaking (claim C3) -/

/-- In the unrestricted builder, the recorded tag is the first of left,
up, diagonal whose candidate equals the cell's minimum. -/
theorem Pcell_tie (s1 s2 : List Char) (i j : Nat) :
    Pcell s1 s2 (i + 1) (j + 1) =
      firstMatchTag (Ecell s1 s2 (i + 1) (j + 1))
        [(1, INDEL + Ecell s1 s2 (i + 1) j), (2, INDEL + Ecell s1 s2 i (j + 1)),
          (0, diff (chAt s1 i) (chAt s2 j) + Ecell s1 s2 i j)] := by
  by_cases h1 : Ecell s1 s2 (i + 1) (j + 1) = INDEL + Ecell s1 s2 (i + 1) j
  · simp only [Pcell, firstMatchTag, List.find?, if_pos h1, decide_eq_true h1]
  · by_cases h2 : Ecell s1 s2 (i + 1) (j + 1) = INDEL + Ecell s1 s2 i (j + 1)
    · simp only [Pcell, firstMatchTag, List.find?, if_neg h1, if_pos h2,
        decide_eq_false h1, decide_eq_true h2]
    · have h0 : Ecell s1 s2 (i + 1) (j + 1) =
          diff (chAt s1 i) (chAt s2 j) + Ecell s1 s2 i j :=
        min3_resolve (Ecell_succ s1 s2 i j) h1 h2
      simp only [Pcell, firstMatchTag, List.find?, if_neg h1, if_neg h2,
        decide_eq_false h1, decide_eq_false h2, decide_eq_true h0]

/-- In the banded builder, the recorded tag at a populated non-row-0 cell
is the first of the cell's candidate moves (left before up before
diagonal, restricted at the band edges) whose value equals the cell's
minimum. -/
theorem Pb_tie (t1 t2 : List Char) (i j : Nat) (hv : validB t2.length i j) (hi : i ≠ 0) :
    Pb t1 t2 i j = ((firstMatchTag (Eb t1 t2 i j) (bandCands t1 t2 i j) : Int) : WithTop Int) := by
  have hmin := Eb_succ t1 t2 i j hv hi
  by_cases h6 : j = 6
  · rw [if_pos h6] at hmin
    by_cases h1 : Eb t1 t2 i j = ((INDEL : Int) : WithTop Int) + Eb t1 t2 i (j - 1)
    · simp only [Pb, if_pos hv, if_neg hi, if_pos h6, if_pos h1, bandCands, firstMatchTag,
        List.find?, decide_eq_true h1]
    · have h0 := min2_resolve hmin h1
      simp only [Pb, if_pos hv, if_neg hi, if_pos h6, if_neg h1, bandCands, firstMatchTag,
        List.find?, decide_eq_false h1, decide_eq_true h0]
  · by_cases h00 : j = 0
    · rw [if_neg h6, if_pos h00] at hmin
      by_cases h2 : Eb t1 t2 i j = ((INDEL : Int) : WithTop Int) + Eb t1 t2 (i - 1) (j + 1)
      · simp only [Pb, if_pos hv, if_neg hi, if_neg h6, if_pos h00, if_pos h2, bandCands,
          firstMatchTag, List.find?, decide_eq_true h2]
      · have h0 := min2_resolve hmin h2
        simp only [Pb, if_pos hv, if_neg hi, if_neg h6, if_pos h00, if_neg h2, bandCands,
          firstMatchTag, List.find?, decide_eq_false h2, decide_eq_true h0]
    · rw [if_neg h6, if_neg h00] at hmin
      by_cases h1 : Eb t1 t2 i j = ((INDEL : Int) : WithTop Int) + Eb t1 t2 i (j - 1)
      · simp only [Pb, if_pos hv, if_neg hi, if_neg h6, if_neg h00, if_pos h1, bandCands,
          firstMatchTag, List.find?, decide_eq_true h1]
      · by_cases h2 : Eb t1 t2 i j = ((INDEL : Int) : WithTop Int) + Eb t1 t2 (i - 1) (j + 1)
        · simp only [Pb, if_pos hv, if_neg hi, if_neg h6, if_neg h00, if_neg h1, if_pos h2,
            bandCands, firstMatchTag, List.find?, decide_eq_false h1, decide_eq_true h2]
        · have h0 := min3_resolve hmin h1 h2
          simp only [Pb, if_pos hv, if_neg hi, if_neg h6, if_neg h00, if_neg h1, if_neg h2,
            bandCands, firstMatchTag, List.find?, decide_eq_false h1, decide_eq_false h2,
            decide_eq_true h0]

/-- C3: in every populated cell with `i ≥ 1`, `j ≥ 1` of the unrestricted
builder, and every populated cell with `i ≥ 1` of the banded builder, the
recorded back-pointer tag is the first of left (tag 1), up (tag 2),
diagonal (tag 0) whose candidate value equals the achieved minimum (at the
band's edge columns the missing neighbour's candidate is absent). -/
theorem C3_tie_break_priority :
    (∀ L (s1 s2 : List Char) (i j : Nat), 1 ≤ i → i ≤ min s1.length L → 1 ≤ j →
      j ≤ min s2.length L →
      ((getEditDistanceUnrestricted L s1 s2).2.getD i []).getD j 99 =
        firstMatchTag (Ecell s1 s2 i j)
          [(1, INDEL + Ecell s1 s2 i (j - 1)), (2, INDEL + Ecell s1 s2 (i - 1) j),
            (0, diff (chAt s1 (i - 1)) (chAt s2 (j - 1)) + Ecell s1 s2 (i - 1) (j - 1))]) ∧
    (∀ L (s1 s2 : List Char) (i j : Nat), s2.take L ≠ [] → 1 ≤ i →
      i ≤ (s1.take L).length → j ≤ 6 → validB (s2.take L).length i j →
      ((PtabB (s1.take L) (s2.take L)).getD i []).getD j ⊤ =
        ((firstMatchTag (Eb (s1.take L) (s2.take L) i j)
          (bandCands (s1.take L) (s2.take L) i j) : Int) : WithTop Int)) := by
  constructor
  · intro L s1 s2 i j h1i hi h1j hj
    cases i with
    | zero => omega
    | succ i' =>
      cases j with
      | zero => omega
      | succ j' =>
        show ((PtabU L s1 s2).getD _ []).getD _ 99 = _
        rw [PtabU_getD L s1 s2 _ _ _ hi hj, Pcell_tie]
        simp only [Nat.add_sub_cancel]
  · intro L s1 s2 i j _hne h1i hi hj hv
    rw [PtabB_getD _ _ _ _ _ hi hj]
    exact Pb_tie _ _ _ _ hv (by omega)

/-- Witness for C3 at concrete cells of both builders. -/
theorem C3_tie_break_priority_witness :
    (((getEditDistanceUnrestricted 2 ['A', 'B'] ['B']).2.getD 1 []).getD 1 99 =
      firstMatchTag (Ecell ['A', 'B'] ['B'] 1 1)
        [(1, INDEL + Ecell ['A', 'B'] ['B'] 1 0), (2, INDEL + Ecell ['A', 'B'] ['B'] 0 1),
          (0, diff (chAt ['A', 'B'] 0) (chAt ['B'] 0) + Ecell ['A', 'B'] ['B'] 0 0)]) ∧
    (((PtabB (['A', 'A', 'T', 'T'].take 4) (['A', 'A'].take 4)).getD 1 []).getD 3 ⊤ =
      ((firstMatchTag (Eb (['A', 'A', 'T', 'T'].take 4) (['A', 'A'].take 4) 1 3)
        (bandCands (['A', 'A', 'T', 'T'].take 4) (['A', 'A'].take 4) 1 3) : Int) :
          WithTop Int)) :=
  ⟨C3_tie_break_priority.1 2 ['A', 'B'] ['B'] 1 1 (by decide) (by decide) (by decide)
      (by decide),
    C3_tie_break_priority.2 4 ['A', 'A', 'T', 'T'] ['A', 'A'] 1 3 (by decide) (by decide)
      (by decide) (by decide) (by decide)⟩

/-- C2 (refuted by the code): at seq1 = "AB", seq2 = "B", align length 2,
unrestricted `align` returns the aligned pair ("AB", "BB") — the recorded
tag 0 in column 0 makes the traceback read `seq2[-1]` — and stripping the
gap markers from the second aligned string gives "BB", not the first
`min(len(seq2), alignLength) = 1` characters of seq2. -/
theorem C2_gap_stripped_projection_fails :
    alignUnrestricted 2 ['A', 'B'] ['B'] =
      some (((2 : Int) : WithTop Int), ['A', 'B'], ['B', 'B']) ∧
    stripGaps ['B', 'B'] ≠ (['B'] : List Char).take (min 1 2) := by decide

/-- C9 (refuted by the code): at seq1 = "AAB", seq2 = "B", align length 3,
the unrestricted traceback wanders to row 1, column -1, wraps around to
the tag at column 1, and then reads `seq2[-2]` of the one-character
sequence 2, raising `IndexError` (modelled as `none`). -/
theorem C9_unrestricted_traceback_raises :
    alignUnrestricted 3 ['A', 'A', 'B'] ['B'] = none := by decide

/-- C10 (refuted by the code): the two second sequences agree on their
first 4 characters, yet unrestricted `align` with align length 4 returns
different results for them — the traceback reads `seq2[-1]`, the last
character of the untruncated sequence, which lies beyond the first 4
characters. -/
theorem C10_prefix_dependence_fails :
    (['A', 'B', 'C', 'D', 'Q'] : List Char).take 4 =
      (['A', 'B', 'C', 'D'] : List Char).take 4 ∧
    align false 4 ['X', 'A', 'B', 'C'] ['A', 'B', 'C', 'D', 'Q'] ≠
      align false 4 ['X', 'A', 'B', 'C'] ['A', 'B', 'C', 'D'] := by decide

/-- C8 (refuted by the code): in the unrestricted builder's matrix for
seq1 = "AB", seq2 = "B" (align length 2), the back-pointer in column 0 of
row 1 is the tag 0 (diagonal), not the "up" tag 2 claimed. -/
theorem C8_column_zero_tag_is_zero :
    ((getEditDistanceUnrestricted 2 ['A', 'B'] ['B']).2.getD 1 []).getD 0 99 = 0 ∧
    (0 : Int) ≠ 2 := by decide

/-- C7 (counterexample): at A = "AATT", B = "AA", banded, align length 4,
the returned banded cost is 4, not 10. -/
theorem C7_banded_cost_is_not_ten :
    (alignBanded 4 ['A', 'A', 'T', 'T'] ['A', 'A']).map (fun r => r.1) =
      some ((4 : Int) : WithTop Int) ∧
    ((4 : Int) : WithTop Int) ≠ ((10 : Int) : WithTop Int) := by decide

/-- C7 (as amended): at A = "AATT", B = "AA", banded, align length 4, the
alignment is feasible, the banded cost is 4 (two matches at −3 each plus
two indels at +5 each), and it equals the unrestricted cost on the same
inputs. -/
theorem C7_banded_cost_four_matches_unrestricted :
    ((((['A', 'A', 'T', 'T'] : List Char).take 4).length : Int) -
        (((['A', 'A'] : List Char).take 4).length : Int)).natAbs ≤ 3 ∧
    alignBanded 4 ['A', 'A', 'T', 'T'] ['A', 'A'] =
      some (((4 : Int) : WithTop Int), ['A', 'A', 'T', 'T'], ['A', 'A', '-', '-']) ∧
    (getEditDistanceUnrestricted 4 ['A', 'A', 'T', 'T'] ['A', 'A']).1 = 4 := by decide

/-- C4 (counterexample): the untruncated lengths 10 and 2 differ by more
than 3, yet with align length 3 banded `align` returns the finite cost −1
and a real alignment, because the infeasibility test uses the truncated
lengths. -/
theorem C4_untruncated_lengths_not_checked :
    3 < (((['A', 'A', 'A', 'A', 'A', 'A', 'A', 'A', 'A', 'A'] : List Char).length : Int) -
        ((['A', 'A'] : List Char).length : Int)).natAbs ∧
    alignBanded 3 ['A', 'A', 'A', 'A', 'A', 'A', 'A', 'A', 'A', 'A'] ['A', 'A'] =
      some (((-1 : Int) : WithTop Int), ['A', 'A', 'A'], ['A', 'A', '-']) := by decide

/-- C4 (as amended): whenever the lengths of the two sequences truncated
to at most alignLength characters differ by more than 3, banded mode
returns the infinite cost with the literal "No Alignment Possible" pair,
the builder having returned `(math.inf, [])` immediately. -/
theorem C4_truncated_infeasible_returns_nap (L : Nat) (s1 s2 : List Char)
    (h : 3 < (((s1.take L).length : Int) - ((s2.take L).length : Int)).natAbs) :
    alignBanded L s1 s2 = some (⊤, NAP, NAP) ∧
    getEditDistanceBanded L s1 s2 = some (⊤, []) := by
  have hb : getEditDistanceBanded L s1 s2 = some (⊤, []) := by
    simp only [getEditDistanceBanded]
    rw [if_pos h]
  refine ⟨?_, hb⟩
  simp [alignBanded, hb]

/-- Witness for the amended C4 at truncated lengths 5 and 1. -/
theorem C4_truncated_infeasible_returns_nap_witness :
    alignBanded 5 ['A', 'A', 'A', 'A', 'A'] ['A'] = some (⊤, NAP, NAP) ∧
    getEditDistanceBanded 5 ['A', 'A', 'A', 'A', 'A'] ['A'] = some (⊤, []) :=
  C4_truncated_infeasible_returns_nap 5 ['A', 'A', 'A', 'A', 'A'] ['A'] (by decide)

/-! ## Identical sequences (claim C6) -/

theorem diff_self (a : Char) : diff a a = -3 := by simp [diff, MATCH]

theorem diff_lb (a b : Char) : -3 ≤ diff a b := by
  unfold diff MATCH SUB
  split <;> omega

theorem diff_ub (a b : Char) : diff a b ≤ 1 := by
  unfold diff MATCH SUB
  split <;> omega

/-- Linear lower bounds on the unrestricted cost matrix (together they say
`E[i][j] ≥ 5*|i-j| - 3*min(i,j)`). -/
theorem Ecell_lb (s1 s2 : List Char) :
    ∀ n (i j : Nat), i + j ≤ n →
      5 * (i : Int) - 8 * (j : Int) ≤ Ecell s1 s2 i j ∧
        5 * (j : Int) - 8 * (i : Int) ≤ Ecell s1 s2 i j := by
  intro n
  induction n with
  | zero =>
    intro i j h
    obtain ⟨rfl, rfl⟩ : i = 0 ∧ j = 0 := by omega
    rw [Ecell_zero_row]
    simp
  | succ n ih =>
    intro i j h
    cases i with
    | zero =>
      rw [Ecell_zero_row]
      push_cast
      omega
    | succ i =>
      cases j with
      | zero =>
        rw [Ecell_zero_col]
        push_cast
        omega
      | succ j =>
        rw [Ecell_succ]
        have hd1 := diff_lb (chAt s1 i) (chAt s2 j)
        have h1 := ih i j (by omega)
        have h2 := ih (i + 1) j (by omega)
        have h3 := ih i (j + 1) (by omega)
        constructor <;>
          · rw [le_min_iff, le_min_iff]
            unfold INDEL
            push_cast at h1 h2 h3 ⊢
            omega

/-- For identical sequences the diagonal cells hold `-3 * k`. -/
theorem Ecell_diag_self (A : List Char) : ∀ k : Nat, Ecell A A k k = -3 * (k : Int) := by
  intro k
  induction k with
  | zero => rw [Ecell_zero_row]; simp
  | succ k ih =>
    rw [Ecell_succ, diff_self, ih]
    have h2 := (Ecell_lb A A (2 * k + 1) (k + 1) k (by omega)).1
    have h3 := (Ecell_lb A A (2 * k + 1) k (k + 1) (by omega)).2
    rw [min_eq_left]
    · push_cast
      ring
    · rw [le_min_iff]
      unfold INDEL
      push_cast at h2 h3 ⊢
      omega

/-- For identical sequences every diagonal back-pointer is the tag 0. -/
theorem Pcell_diag_self (A : List Char) (k : Nat) : Pcell A A (k + 1) (k + 1) = 0 := by
  have h2 := (Ecell_lb A A (2 * k + 1) (k + 1) k (by omega)).1
  have h3 := (Ecell_lb A A (2 * k + 1) k (k + 1) (by omega)).2
  have hd := Ecell_diag_self A (k + 1)
  have hc1 : ¬ Ecell A A (k + 1) (k + 1) = INDEL + Ecell A A (k + 1) k := by
    intro hc
    rw [hd] at hc
    unfold INDEL at hc
    push_cast at hc h2
    omega
  have hc2 : ¬ Ecell A A (k + 1) (k + 1) = INDEL + Ecell A A k (k + 1) := by
    intro hc
    rw [hd] at hc
    unfold INDEL at hc
    push_cast at hc h3
    omega
  simp only [Pcell]
  rw [if_neg hc1, if_neg hc2]

theorem pyNth_map_range {α : Type} (f : Nat → α) (n i : Nat) (h : i < n) :
    pyNth ((List.range n).map f) (i : Int) = some (f i) := by
  have hl : i < ((List.range n).map f).length := by simpa using h
  rw [pyNth_coe_lt _ _ hl]
  congr 1
  simp

/-- One diagonal step of the unrestricted traceback loop. -/
theorem tbU_step_tag0 (s1 s2 : List Char) (P : List (List Int)) (fuel : Nat)
    (i j : Int) (a1 a2 : List Char) (row : List Int) (c1 c2 : Char)
    (hcond : 0 < i ∨ 0 < j) (hrow : pyNth P i = some row) (htag : pyNth row j = some 0)
    (h1 : pyNth s1 (i - 1) = some c1) (h2 : pyNth s2 (j - 1) = some c2) :
    tbU s1 s2 P (fuel + 1) i j a1 a2 =
      tbU s1 s2 P fuel (i - 1) (j - 1) (c1 :: a1) (c2 :: a2) := by
  simp only [tbU, hrow, htag, h1, h2, if_pos hcond]
  norm_num

/-- Running the unrestricted traceback down the diagonal of the matrix
built for two identical sequences. -/
theorem tbU_diag_run (A : List Char) (L : Nat) (hL : A.length ≤ L) :
    ∀ (k : Nat) (fuel : Nat) (a1 a2 : List Char), k ≤ A.length → k + 1 ≤ fuel →
      tbU A A (PtabU L A A) fuel (k : Int) (k : Int) a1 a2 =
        some ((A.take k ++ a1).take 100, (A.take k ++ a2).take 100) := by
  have hmin : min A.length L = A.length := min_eq_left hL
  intro k
  induction k with
  | zero =>
    intro fuel a1 a2 hk hf
    cases fuel with
    | zero => omega
    | succ f =>
      simp only [tbU, Nat.cast_zero]
      rw [if_neg (by omega)]
      simp
  | succ k ih =>
    intro fuel a1 a2 hk hf
    cases fuel with
    | zero => omega
    | succ f =>
      have hklen : k < A.length := by omega
      have eidx : ((k + 1 : Nat) : Int) - 1 = (k : Int) := by push_cast; ring
      have hrow : pyNth (PtabU L A A) ((k + 1 : Nat) : Int) =
          some ((List.range (min A.length L + 1)).map fun j => Pcell A A (k + 1) j) := by
        unfold PtabU
        exact pyNth_map_range _ _ _ (by omega)
      have htag : pyNth ((List.range (min A.length L + 1)).map fun j => Pcell A A (k + 1) j)
          ((k + 1 : Nat) : Int) = some 0 := by
        rw [pyNth_map_range _ _ _ (by omega), Pcell_diag_self]
      have hch : pyNth A (((k + 1 : Nat) : Int) - 1) = some A[k] := by
        rw [eidx]
        exact pyNth_coe_lt A k hklen
      rw [tbU_step_tag0 A A (PtabU L A A) f _ _ a1 a2 _ A[k] A[k] (by omega) hrow htag hch hch,
        eidx, ih f (A[k] :: a1) (A[k] :: a2) (by omega) (by omega)]
      have htake : A.take (k + 1) = A.take k ++ [A[k]] := by
        rw [List.take_succ]
        simp [List.getElem?_eq_getElem hklen]
      rw [htake, List.append_assoc, List.append_assoc, List.singleton_append,
        List.singleton_append]

/-- The traceback on the matrix built for two identical sequences returns
the sequence itself on both sides. -/
theorem alignedU_self (A : List Char) (L : Nat) (hL : A.length ≤ L) :
    alignedUnrestricted A A (PtabU L A A) = some (A.take 100, A.take 100) := by
  have hmin : min A.length L = A.length := min_eq_left hL
  have hlast : (PtabU L A A).getLast? =
      some ((List.range (min A.length L + 1)).map fun j =>
        Pcell A A (min A.length L) j) := by
    unfold PtabU
    rw [List.getLast?_eq_getElem?]
    simp
  have hPlen : (PtabU L A A).length = A.length + 1 := by
    unfold PtabU
    simp [hmin]
  have hRlen : ((List.range (min A.length L + 1)).map fun j =>
      Pcell A A (min A.length L) j).length = A.length + 1 := by
    simp [hmin]
  have ecast : ((A.length + 1 : Nat) : Int) - 1 = (A.length : Int) := by
    push_cast
    ring
  unfold alignedUnrestricted
  rw [hlast]
  show tbU A A (PtabU L A A) _ _ _ [] [] = _
  rw [hPlen, hRlen, ecast,
    tbU_diag_run A L hL A.length _ [] [] le_rfl (by omega)]
  simp

/-- C6: for every non-empty sequence A of length at most the align length,
unrestricted `align(A, A)` returns cost `-3 * len(A)` and both aligned
strings equal A truncated to 100 characters, with no gap markers. -/
theorem C6_identical_sequences (A : List Char) (L : Nat) (_hne : A ≠ [])
    (hL : A.length ≤ L) :
    alignUnrestricted L A A =
      some (((-3 * (A.length : Int) : Int) : WithTop Int), A.take 100, A.take 100) := by
  have hmin : min A.length L = A.length := min_eq_left hL
  have hscore : (getEditDistanceUnrestricted L A A).1 = -3 * (A.length : Int) := by
    show ((EtabU L A A).getD (min A.length L) []).getD (min A.length L) 0 = _
    rw [EtabU_getD _ _ _ _ _ le_rfl le_rfl, hmin, Ecell_diag_self]
  have hPne : (getEditDistanceUnrestricted L A A).2 ≠ [] := by
    show PtabU L A A ≠ []
    unfold PtabU
    simp
  simp only [alignUnrestricted, if_neg hPne]
  have hAl : (getEditDistanceUnrestricted L A A).2 = PtabU L A A := rfl
  rw [hAl, alignedU_self A L hL, hscore]
  rfl

/-- Witness for C6 at the spec's example A = "AAAA", align length 4. -/
theorem C6_identical_sequences_witness :
    alignUnrestricted 4 ['A', 'A', 'A', 'A'] ['A', 'A', 'A', 'A'] =
      some (((-12 : Int) : WithTop Int), ['A', 'A', 'A', 'A'], ['A', 'A', 'A', 'A']) := by
  have h := C6_identical_sequences ['A', 'A', 'A', 'A'] 4 (by decide) (by decide)
  simpa using h

/-! ## Populated banded cells are finite (claim C5) -/

theorem Eb_ne_top (t1 t2 : List Char) :
    ∀ i j, validB t2.length i j → Eb t1 t2 i j ≠ ⊤ := by
  intro i
  induction i with
  | zero =>
    intro j hv
    rw [Eb_row0 _ _ _ hv]
    exact WithTop.coe_ne_top
  | succ i ih =>
    intro j hv
    rw [Eb_succ _ _ _ _ hv (Nat.succ_ne_zero i)]
    simp only [Nat.add_sub_cancel]
    by_cases hreal : 3 ≤ i + j
    · have hvd : validB t2.length i j := by
        unfold validB at hv ⊢
        omega
      have hd := ih j hvd
      have hdg : ((diff (chAt t1 i) (pyChD t2 ((i + 1 : Nat) + (j : Int) - 4)) : Int) :
          WithTop Int) + Eb t1 t2 i j ≠ ⊤ := by
        intro h
        rw [WithTop.add_eq_top] at h
        rcases h with h | h
        · exact WithTop.coe_ne_top h
        · exact hd h
      intro htop
      split_ifs at htop <;> rw [min_eq_top] at htop <;> exact hdg htop.1
    · have hij : i + j = 2 := by
        unfold validB at hv
        omega
      have hvu : validB t2.length i (j + 1) := by
        unfold validB at hv ⊢
        omega
      have hu := ih (j + 1) hvu
      have h6 : j ≠ 6 := by omega
      have hne2 : ((INDEL : Int) : WithTop Int) + Eb t1 t2 i (j + 1) ≠ ⊤ := by
        intro h
        rw [WithTop.add_eq_top] at h
        rcases h with h | h
        · exact WithTop.coe_ne_top h
        · exact hu h
      by_cases h0 : j = 0
      · rw [if_neg h6, if_pos h0, h0]
        intro htop
        rw [min_eq_top] at htop
        exact hne2 (h0 ▸ htop.2)
      · rw [if_neg h6, if_neg h0]
        intro htop
        rw [min_eq_top, min_eq_top] at htop
        exact hne2 htop.2.2

/-- A banded `E` cell is infinite exactly when it is unpopulated. -/
theorem Eb_eq_top_iff (t1 t2 : List Char) (i j : Nat) :
    Eb t1 t2 i j = ⊤ ↔ ¬ validB t2.length i j := by
  constructor
  · intro h hv
    exact Eb_ne_top t1 t2 i j hv h
  · exact Eb_invalid t1 t2 i j

/-- A banded `P` cell is infinite exactly when it is unpopulated. -/
theorem Pb_eq_top_iff (t1 t2 : List Char) (i j : Nat) :
    Pb t1 t2 i j = ⊤ ↔ ¬ validB t2.length i j := by
  unfold Pb
  split_ifs with hv h0 h6 hc hz hc2 hc3 <;>
    simp [hv, WithTop.coe_ne_top]

/-- The leftward scan over a band row whose entries are infinite exactly
beyond the rightmost populated column finds that column. -/
theorem scanInf_row (g : Nat → WithTop Int) (m n jstar : Nat)
    (hchar : ∀ j : Nat, g j = ⊤ ↔ ¬ validB m n j)
    (hvalid : validB m n jstar)
    (hmax : ∀ j : Nat, jstar < j → j ≤ 6 → ¬ validB m n j) :
    ∀ (fuel : Nat) (j : Nat), jstar ≤ j → j ≤ 6 → j - jstar < fuel →
      scanInf ((List.range 7).map g) fuel (j : Int) = some ((jstar : Int), g jstar) := by
  intro fuel
  induction fuel with
  | zero =>
    intro j hj1 hj2 hj3
    omega
  | succ f ih =>
    intro j hj1 hj2 hj3
    have hget : pyNth ((List.range 7).map g) (j : Int) = some (g j) :=
      pyNth_map_range g 7 j (by omega)
    simp only [scanInf, hget]
    by_cases htop : g j = ⊤
    · rw [if_pos htop]
      have hjne : j ≠ jstar := by
        intro h
        rw [h] at htop
        exact absurd hvalid ((hchar jstar).mp htop)
      have ecast : (j : Int) - 1 = ((j - 1 : Nat) : Int) := by
        omega
      rw [ecast]
      exact ih (j - 1) (by omega) (by omega) (by omega)
    · rw [if_neg htop]
      have hvj : validB m n j := by
        by_contra hnv
        exact htop ((hchar j).mpr hnv)
      have hje : j = jstar := by
        by_contra hne
        exact hmax j (by omega) hj2 hvj
      rw [hje]

/-- C5: in feasible banded mode (truncated lengths within 3 of each
other), the returned cost is the value of the last band row at its
rightmost populated (non-infinite) column, found by scanning leftward from
band column 6, and the banded traceback's starting scan lands on that very
same cell, so cost and reconstruction share one terminal cell. -/
theorem C5_terminal_cell (L : Nat) (s1 s2 : List Char) (_hne : s2.take L ≠ [])
    (hf : (((s1.take L).length : Int) - ((s2.take L).length : Int)).natAbs ≤ 3) :
    ∃ jstar : Nat, jstar ≤ 6 ∧
      getEditDistanceBanded L s1 s2 =
        some (Eb (s1.take L) (s2.take L) (s1.take L).length jstar,
          PtabB (s1.take L) (s2.take L)) ∧
      Eb (s1.take L) (s2.take L) (s1.take L).length jstar ≠ ⊤ ∧
      (∀ j : Nat, jstar < j → j ≤ 6 →
        Eb (s1.take L) (s2.take L) (s1.take L).length j = ⊤) ∧
      alignedBanded s1 s2 (PtabB (s1.take L) (s2.take L)) =
        tbB s1 s2 (PtabB (s1.take L) (s2.take L))
          (8 * ((PtabB (s1.take L) (s2.take L)).length + 8))
          (((PtabB (s1.take L) (s2.take L)).length : Int) - 1) (jstar : Int) [] [] := by
  set t1 := s1.take L with ht1
  set t2 := s2.take L with ht2
  set n := t1.length with hn
  set m := t2.length with hm
  have hnm : n ≤ m + 3 ∧ m ≤ n + 3 := by omega
  refine ⟨min 6 (m + 3 - n), min_le_left _ _, ?_⟩
  have hvalid : validB m n (min 6 (m + 3 - n)) := by
    unfold validB
    rcases Nat.le_total 6 (m + 3 - n) with h | h
    · rw [min_eq_left h]
      omega
    · rw [min_eq_right h]
      omega
  have hmax : ∀ j : Nat, min 6 (m + 3 - n) < j → j ≤ 6 → ¬ validB m n j := by
    intro j hj hj6
    unfold validB
    rcases Nat.le_total 6 (m + 3 - n) with h | h
    · rw [min_eq_left h] at hj
      omega
    · rw [min_eq_right h] at hj
      omega
  have hcharE : ∀ j : Nat, Eb t1 t2 n j = ⊤ ↔ ¬ validB m n j := fun j =>
    Eb_eq_top_iff t1 t2 n j
  have hcharP : ∀ j : Nat, Pb t1 t2 n j = ⊤ ↔ ¬ validB m n j := fun j =>
    Pb_eq_top_iff t1 t2 n j
  have hrowE : (EtabB t1 t2).getD n [] = (List.range 7).map fun j => Eb t1 t2 n j := by
    unfold EtabB
    rw [map_range_getD _ _ _ _ (by omega)]
  have hscanE := scanInf_row (fun j => Eb t1 t2 n j) m n (min 6 (m + 3 - n)) hcharE hvalid
    hmax 16 6 (min_le_left _ _) le_rfl (by omega)
  have hscanP := scanInf_row (fun j => Pb t1 t2 n j) m n (min 6 (m + 3 - n)) hcharP hvalid
    hmax 16 6 (min_le_left _ _) le_rfl (by omega)
  refine ⟨?_, Eb_ne_top t1 t2 n _ hvalid, ?_, ?_⟩
  · simp only [getEditDistanceBanded]
    rw [← ht1, ← ht2, ← hn, ← hm, if_neg (by omega : ¬ 3 < ((n : Int) - (m : Int)).natAbs),
      hrowE, show (6 : Int) = ((6 : Nat) : Int) by norm_num, hscanE]
  · intro j hj hj6
    exact Eb_invalid t1 t2 n j (hmax j hj hj6)
  · have hlastP : (PtabB t1 t2).getLast? =
        some ((List.range 7).map fun j => Pb t1 t2 n j) := by
      unfold PtabB
      rw [List.getLast?_eq_getElem?]
      simp
    have hlen : ((((List.range 7).map fun j => Pb t1 t2 n j).length : Int) - 1) =
        ((6 : Nat) : Int) := by simp
    unfold alignedBanded
    simp only [hlastP]
    rw [hlen, hscanP]

/-- Witness for C5 at A = "AATT", B = "AA", align length 4. -/
theorem C5_terminal_cell_witness :
    ∃ jstar : Nat, jstar ≤ 6 ∧
      getEditDistanceBanded 4 ['A', 'A', 'T', 'T'] ['A', 'A'] =
        some (Eb ((['A', 'A', 'T', 'T'] : List Char).take 4)
          ((['A', 'A'] : List Char).take 4)
          ((['A', 'A', 'T', 'T'] : List Char).take 4).length jstar,
          PtabB ((['A', 'A', 'T', 'T'] : List Char).take 4)
            ((['A', 'A'] : List Char).take 4)) ∧
      Eb ((['A', 'A', 'T', 'T'] : List Char).take 4) ((['A', 'A'] : List Char).take 4)
        ((['A', 'A', 'T', 'T'] : List Char).take 4).length jstar ≠ ⊤ ∧
      (∀ j : Nat, jstar < j → j ≤ 6 →
        Eb ((['A', 'A', 'T', 'T'] : List Char).take 4) ((['A', 'A'] : List Char).take 4)
          ((['A', 'A', 'T', 'T'] : List Char).take 4).length j = ⊤) ∧
      alignedBanded ['A', 'A', 'T', 'T'] ['A', 'A']
          (PtabB ((['A', 'A', 'T', 'T'] : List Char).take 4)
            ((['A', 'A'] : List Char).take 4)) =
        tbB ['A', 'A', 'T', 'T'] ['A', 'A']
          (PtabB ((['A', 'A', 'T', 'T'] : List Char).take 4)
            ((['A', 'A'] : List Char).take 4))
          (8 * ((PtabB ((['A', 'A', 'T', 'T'] : List Char).take 4)
            ((['A', 'A'] : List Char).take 4)).length + 8))
          (((PtabB ((['A', 'A', 'T', 'T'] : List Char).take 4)
            ((['A', 'A'] : List Char).take 4)).length : Int) - 1) (jstar : Int) [] [] :=
  C5_terminal_cell 4 ['A', 'A', 'T', 'T'] ['A', 'A'] (by decide) (by decide)

/-! ## The DP value is the minimum alignment cost (claim C1) -/

theorem chAt_eq_getElem (s : List Char) (k : Nat) (h : k < s.length) : chAt s k = s[k] := by
  unfold chAt
  exact List.getD_eq_getElem s 'A' h

theorem chAt_take (s : List Char) (L k : Nat) (h : k < min s.length L) :
    chAt (s.take L) k = chAt s k := by
  have h1 : k < (s.take L).length := by
    rw [List.length_take]
    omega
  rw [chAt_eq_getElem _ _ h1, chAt_eq_getElem s k (by omega)]
  simp [List.getElem_take]

theorem take_succ_eq (s : List Char) (k : Nat) (h : k < s.length) :
    s.take (k + 1) = s.take k ++ [s[k]] := by
  rw [List.take_succ]
  simp [List.getElem?_eq_getElem h]

theorem take_eq_take_min (s : List Char) (L : Nat) :
    s.take L = s.take (min s.length L) := by
  rcases le_total L s.length with h | h
  · rw [min_eq_right h]
  · rw [min_eq_left h, List.take_length, List.take_of_length_le h]

theorem specE_row (s1 s2 : List Char) (j : Nat) : specE s1 s2 0 j = 5 * (j : Int) := rfl

theorem specE_col (s1 s2 : List Char) (i : Nat) : specE s1 s2 i 0 = 5 * (i : Int) := by
  cases i with
  | zero => rfl
  | succ i => rfl

theorem specE_diag_le (s1 s2 : List Char) (i j : Nat) :
    specE s1 s2 (i + 1) (j + 1) ≤ specDiff (chAt s1 i) (chAt s2 j) + specE s1 s2 i j := by
  rw [specE_succ]
  exact min_le_left _ _

theorem specE_left_le (s1 s2 : List Char) (i j : Nat) :
    specE s1 s2 i (j + 1) ≤ 5 + specE s1 s2 i j := by
  cases i with
  | zero =>
    rw [specE_row, specE_row]
    push_cast
    omega
  | succ i =>
    rw [specE_succ]
    exact le_trans (min_le_right _ _) (min_le_left _ _)

theorem specE_up_le (s1 s2 : List Char) (i j : Nat) :
    specE s1 s2 (i + 1) j ≤ 5 + specE s1 s2 i j := by
  cases j with
  | zero =>
    rw [specE_col, specE_col]
    push_cast
    omega
  | succ j =>
    rw [specE_succ]
    exact le_trans (min_le_right _ _) (min_le_right _ _)

/-- Every alignment of two prefixes costs at least the DP value: the DP
value is a lower bound of the alignment costs. -/
theorem AlignCost_ge (s1 s2 : List Char) :
    ∀ {xs ys : List Char} {c : Int}, AlignCost xs ys c →
      ∀ i j : Nat, i ≤ s1.length → j ≤ s2.length →
        xs = s1.take i → ys = s2.take j → specE s1 s2 i j ≤ c := by
  intro xs ys c h
  induction h with
  | nil =>
    intro i j hi hj hxs hys
    have hli := congrArg List.length hxs
    have hlj := congrArg List.length hys
    simp [List.length_take] at hli hlj
    obtain rfl : i = 0 := by omega
    obtain rfl : j = 0 := by omega
    rw [specE_row]
    simp
  | both x y hd ih =>
    intro i j hi hj hxs hys
    cases i with
    | zero => simp at hxs
    | succ i' =>
      cases j with
      | zero => simp at hys
      | succ j' =>
        rw [take_succ_eq s1 i' (by omega)] at hxs
        rw [take_succ_eq s2 j' (by omega)] at hys
        obtain ⟨hxs', hx⟩ := List.append_inj' hxs rfl
        obtain ⟨hys', hy⟩ := List.append_inj' hys rfl
        have hx' : x = s1[i'] := by simpa using hx
        have hy' : y = s2[j'] := by simpa using hy
        have hih := ih i' j' (by omega) (by omega) hxs' hys'
        have hdg := specE_diag_le s1 s2 i' j'
        rw [chAt_eq_getElem s1 i' (by omega), chAt_eq_getElem s2 j' (by omega)] at hdg
        rw [hx', hy']
        omega
  | del x hd ih =>
    intro i j hi hj hxs hys
    cases i with
    | zero => simp at hxs
    | succ i' =>
      rw [take_succ_eq s1 i' (by omega)] at hxs
      obtain ⟨hxs', hx⟩ := List.append_inj' hxs rfl
      have hih := ih i' j (by omega) hj hxs' hys
      have hup := specE_up_le s1 s2 i' j
      omega
  | ins y hd ih =>
    intro i j hi hj hxs hys
    cases j with
    | zero => simp at hys
    | succ j' =>
      rw [take_succ_eq s2 j' (by omega)] at hys
      obtain ⟨hys', hy⟩ := List.append_inj' hys rfl
      have hih := ih i j' hi (by omega) hxs hys'
      have hlf := specE_left_le s1 s2 i j'
      omega

/-- Some alignment of the two prefixes achieves the DP value. -/
theorem AlignCost_exists (s1 s2 : List Char) :
    ∀ n (i j : Nat), i + j ≤ n → i ≤ s1.length → j ≤ s2.length →
      AlignCost (s1.take i) (s2.take j) (specE s1 s2 i j) := by
  have base : AlignCost (s1.take 0) (s2.take 0) (specE s1 s2 0 0) := by
    have h0 : specE s1 s2 0 0 = 0 := by
      rw [specE_row]
      simp
    rw [h0]
    simp only [List.take_zero]
    exact AlignCost.nil
  intro n
  induction n with
  | zero =>
    intro i j hn hi hj
    obtain ⟨rfl, rfl⟩ : i = 0 ∧ j = 0 := by omega
    exact base
  | succ n ih =>
    intro i j hn hi hj
    cases i with
    | zero =>
      cases j with
      | zero => exact base
      | succ j' =>
        have hjl : j' < s2.length := by omega
        have hrec := ih 0 j' (by omega) hi (by omega)
        have hstep := AlignCost.ins s2[j'] hrec
        have hcost : specE s1 s2 0 (j' + 1) = specE s1 s2 0 j' + 5 := by
          rw [specE_row, specE_row]
          push_cast
          ring
        rw [hcost, take_succ_eq s2 j' hjl]
        exact hstep
    | succ i' =>
      have hil : i' < s1.length := by omega
      cases j with
      | zero =>
        have hrec := ih i' 0 (by omega) (by omega) hj
        have hstep := AlignCost.del s1[i'] hrec
        have hcost : specE s1 s2 (i' + 1) 0 = specE s1 s2 i' 0 + 5 := by
          rw [specE_col, specE_col]
          push_cast
          ring
        rw [hcost, take_succ_eq s1 i' hil]
        exact hstep
      | succ j' =>
        have hjl : j' < s2.length := by omega
        have hsucc := specE_succ s1 s2 i' j'
        rcases min_choice (specDiff (chAt s1 i') (chAt s2 j') + specE s1 s2 i' j')
          (min (5 + specE s1 s2 (i' + 1) j') (5 + specE s1 s2 i' (j' + 1))) with hm | hm
        · rw [hsucc, hm, chAt_eq_getElem s1 i' hil, chAt_eq_getElem s2 j' hjl,
            take_succ_eq s1 i' hil, take_succ_eq s2 j' hjl]
          have hrec := ih i' j' (by omega) (by omega) (by omega)
          have hstep := AlignCost.both s1[i'] s2[j'] hrec
          have hc : specDiff s1[i'] s2[j'] + specE s1 s2 i' j' =
              specE s1 s2 i' j' + specDiff s1[i'] s2[j'] := add_comm _ _
          rw [hc]
          exact hstep
        · rcases min_choice (5 + specE s1 s2 (i' + 1) j')
            (5 + specE s1 s2 i' (j' + 1)) with hm2 | hm2
          · rw [hsucc, hm, hm2, take_succ_eq s2 j' hjl]
            have hrec := ih (i' + 1) j' (by omega) (by omega) (by omega)
            have hstep := AlignCost.ins s2[j'] hrec
            have hc : (5 : Int) + specE s1 s2 (i' + 1) j' =
                specE s1 s2 (i' + 1) j' + 5 := add_comm _ _
            rw [hc]
            exact hstep
          · rw [hsucc, hm, hm2, take_succ_eq s1 i' hil]
            have hrec := ih i' (j' + 1) (by omega) (by omega) (by omega)
            have hstep := AlignCost.del s1[i'] hrec
            have hc : (5 : Int) + specE s1 s2 i' (j' + 1) =
                specE s1 s2 i' (j' + 1) + 5 := add_comm _ _
            rw [hc]
            exact hstep

/-- The DP over the original sequences capped at the truncated lengths
equals the DP over the truncated sequences. -/
theorem specE_take (s1 s2 : List Char) (L : Nat) :
    ∀ n (i j : Nat), i + j ≤ n → i ≤ min s1.length L → j ≤ min s2.length L →
      specE (s1.take L) (s2.take L) i j = specE s1 s2 i j := by
  intro n
  induction n with
  | zero =>
    intro i j h hi hj
    obtain ⟨rfl, rfl⟩ : i = 0 ∧ j = 0 := by omega
    rfl
  | succ n ih =>
    intro i j h hi hj
    cases i with
    | zero => rw [specE_row, specE_row]
    | succ i' =>
      cases j with
      | zero => rw [specE_col, specE_col]
      | succ j' =>
        rw [specE_succ, specE_succ, ih i' j' (by omega) (by omega) (by omega),
          ih (i' + 1) j' (by omega) (by omega) (by omega),
          ih i' (j' + 1) (by omega) (by omega) (by omega),
          chAt_take s1 L i' (by omega), chAt_take s2 L j' (by omega)]

/-- C1: the unrestricted builder returns the value `E[n][m]` of the spec's
dynamic program over the two truncated sequences, and that value is the
least cost over all alignments of the truncated sequences under
match = −3, substitution = +1, indel = +5. -/
theorem C1_unrestricted_minimum_cost (L : Nat) (s1 s2 : List Char)
    (_h1 : s1 ≠ []) (_h2 : s2 ≠ []) :
    (getEditDistanceUnrestricted L s1 s2).1 =
      specE (s1.take L) (s2.take L) (s1.take L).length (s2.take L).length ∧
    IsLeast {c : Int | AlignCost (s1.take L) (s2.take L) c}
      ((getEditDistanceUnrestricted L s1 s2).1) := by
  have hn : (s1.take L).length = min s1.length L := by
    rw [List.length_take, Nat.min_comm]
  have hm : (s2.take L).length = min s2.length L := by
    rw [List.length_take, Nat.min_comm]
  have hscore : (getEditDistanceUnrestricted L s1 s2).1 =
      specE s1 s2 (min s1.length L) (min s2.length L) := by
    show ((EtabU L s1 s2).getD _ []).getD _ 0 = _
    rw [EtabU_getD _ _ _ _ _ le_rfl le_rfl, Ecell_eq_specE]
  have htk1 : s1.take L = s1.take (min s1.length L) := take_eq_take_min s1 L
  have htk2 : s2.take L = s2.take (min s2.length L) := take_eq_take_min s2 L
  refine ⟨?_, ?_, ?_⟩
  · rw [hscore, hn, hm,
      specE_take s1 s2 L (min s1.length L + min s2.length L) _ _ le_rfl le_rfl le_rfl]
  · show AlignCost _ _ _
    rw [hscore, htk1, htk2]
    exact AlignCost_exists s1 s2 (min s1.length L + min s2.length L) _ _ le_rfl
      (min_le_left _ _) (min_le_left _ _)
  · intro c hc
    rw [hscore]
    exact AlignCost_ge s1 s2 hc (min s1.length L) (min s2.length L) (min_le_left _ _)
      (min_le_left _ _) htk1 htk2

/-- Witness for C1 at seq1 = seq2 = "A", align length 1. -/
theorem C1_unrestricted_minimum_cost_witness :
    (getEditDistanceUnrestricted 1 ['A'] ['A']).1 =
      specE ((['A'] : List Char).take 1) ((['A'] : List Char).take 1)
        ((['A'] : List Char).take 1).length ((['A'] : List Char).take 1).length ∧
    IsLeast {c : Int | AlignCost ((['A'] : List Char).take 1) ((['A'] : List Char).take 1) c}
      ((getEditDistanceUnrestricted 1 ['A'] ['A']).1) :=
  C1_unrestricted_minimum_cost 1 ['A'] ['A'] (by decide) (by decide)
